import Mathlib

/-!
Verification of the numeric core of `mmm_multicollinearity_streamlit.py`
(synthetic correlated marketing-data generator, multicollinearity
diagnostics, bootstrap stability analysis, regularized-fit comparator).

Conventions of the shallow embedding:
* numeric values are rationals (`ℚ`), standing for the double-precision
  values of the Python code; all arithmetic identities proved here are
  exact-arithmetic statements about the formulas the code computes;
* NumPy global randomness is modelled explicitly: the stream of values
  produced by the seeded generator is a function of the seed
  (`seedFn : ℕ → Randomness`), and code that draws without reseeding is a
  function of the ambient stream it receives;
* transcendental functions (`sin`, `sqrt`) are passed in as function
  parameters, constrained only by the bounds the proofs need, so every
  definition stays computable.
-/

/- ----------------------------------------------------------------
   Section 1: the data generator
   (source block: `if st.button("🎲 Generate Marketing Data")`, which runs
   np.random.seed(42); multivariate-normal spend draws; clamping;
   seasonality; trend; Sales linear combination; Gaussian noise;
   Black-Friday outlier rows; rounding into the stored dataframe.)
   ---------------------------------------------------------------- -/

/-- The four correlation scenarios of the `corr_matrices` dictionary. -/
inductive CorrScenario
  | low
  | medium
  | high
  | extreme
deriving DecidableEq, Repr

/-- The ambient NumPy random stream, abstracted: `mvnDraw` is the table of
values returned by `np.random.multivariate_normal(mean, cov, n_weeks)`
(indexed by scenario, number of weeks, week, channel) and `normalDraw` the
values of `np.random.normal(0, scale, n_weeks)` (indexed by the scale
argument, number of weeks and week).  Both are deterministic functions of
the generator state, which is what this structure represents. -/
structure Randomness where
  mvnDraw : CorrScenario → ℕ → ℕ → Fin 6 → ℚ
  normalDraw : ℚ → ℕ → ℕ → ℚ

/-- The UI parameters of the generation block: `n_weeks`,
`correlation_level`, `base_sales`, `noise_level`, and the three checkboxes
`seasonality`, `trend`, `outliers`. -/
structure GenParams where
  nWeeks : ℕ
  scenario : CorrScenario
  baseSales : ℚ
  noisePct : ℚ
  seasonality : Bool
  trend : Bool
  outliers : Bool

/-- Ground-truth channel coefficients `true_coefficients`:
TV 2.5, Digital 3.2, Social 2.8, Search 4.1, Email 1.5, Radio 1.8. -/
def trueCoef : Fin 6 → ℚ
  | 0 => 5/2
  | 1 => 16/5
  | 2 => 14/5
  | 3 => 41/10
  | 4 => 3/2
  | 5 => 9/5

/-- Raw multivariate-normal spend draw for week `t`, channel `j`:
`spend_data = np.random.multivariate_normal(mean, cov, n_weeks)`. -/
def rawSpend (r : Randomness) (p : GenParams) (t : ℕ) (j : Fin 6) : ℚ :=
  r.mvnDraw p.scenario p.nWeeks t j

/-- `spend_data = np.maximum(spend_data, 0)`: clamp negative draws. -/
def clampedSpend (r : Randomness) (p : GenParams) (t : ℕ) (j : Fin 6) : ℚ :=
  max (rawSpend r p t j) 0

/-- Seasonal multiplier `1 + 0.3 * np.sin(2 * np.pi * t / 52)`; `sinQ t`
stands for the value of `sin(2π t / 52)`, passed in abstractly. -/
def seasonalFactor (sinQ : ℕ → ℚ) (t : ℕ) : ℚ :=
  1 + 3/10 * sinQ t

/-- Channel value after the optional seasonality step. -/
def seasonedSpend (sinQ : ℕ → ℚ) (r : Randomness) (p : GenParams)
    (t : ℕ) (j : Fin 6) : ℚ :=
  if p.seasonality then clampedSpend r p t j * seasonalFactor sinQ t
  else clampedSpend r p t j

/-- Growth multiplier `1 + 0.002 * t`. -/
def trendFactor (t : ℕ) : ℚ := 1 + 2/1000 * t

/-- Channel value after the optional trend step: these are the values the
Sales column is computed from. -/
def trendedSpend (sinQ : ℕ → ℚ) (r : Randomness) (p : GenParams)
    (t : ℕ) (j : Fin 6) : ℚ :=
  if p.trend then seasonedSpend sinQ r p t j * trendFactor t
  else seasonedSpend sinQ r p t j

/-- Scale argument of the noise draw: `base_sales * noise_level / 100`. -/
def noiseScale (p : GenParams) : ℚ := p.baseSales * p.noisePct / 100

/-- The noise value added to week `t`:
`np.random.normal(0, base_sales * noise_level/100, n_weeks)[t]`. -/
def noiseAt (r : Randomness) (p : GenParams) (t : ℕ) : ℚ :=
  r.normalDraw (noiseScale p) p.nWeeks t

/-- The Sales accumulation loop, exactly as the code runs it:
`df[Sales] = base_sales` then, channel by channel,
`df[Sales] += df[channel] * true_coefficients[channel]`. -/
def salesLin (sinQ : ℕ → ℚ) (r : Randomness) (p : GenParams) (t : ℕ) : ℚ :=
  (List.finRange 6).foldl
    (fun acc j => acc + trendedSpend sinQ r p t j * trueCoef j) p.baseSales

/-- Sales value after the noise addition, before the outlier step. -/
def salesPre (sinQ : ℕ → ℚ) (r : Randomness) (p : GenParams) (t : ℕ) : ℚ :=
  salesLin sinQ r p t + noiseAt r p t

/-- The Black-Friday rows: `black_friday_weeks = [46, 98, 150]`. -/
def isOutlierWeek (t : ℕ) : Prop := t = 46 ∨ t = 98 ∨ t = 150

instance (t : ℕ) : Decidable (isOutlierWeek t) := by
  unfold isOutlierWeek; infer_instance

/-- Channel value after the outlier step: `df.iloc[week] *= 2.5` for each
listed week strictly below `n_weeks`, applied to the whole row. -/
def outlierSpend (sinQ : ℕ → ℚ) (r : Randomness) (p : GenParams)
    (t : ℕ) (j : Fin 6) : ℚ :=
  if p.outliers ∧ isOutlierWeek t ∧ t < p.nWeeks
  then 5/2 * trendedSpend sinQ r p t j
  else trendedSpend sinQ r p t j

/-- Sales value after the outlier step (the row scaling hits the
already-computed Sales column as well). -/
def outlierSales (sinQ : ℕ → ℚ) (r : Randomness) (p : GenParams) (t : ℕ) : ℚ :=
  if p.outliers ∧ isOutlierWeek t ∧ t < p.nWeeks
  then 5/2 * salesPre sinQ r p t
  else salesPre sinQ r p t

/-- Round-half-to-even to an integer, the rounding mode of
`numpy`/`pandas` `.round`. -/
def roundHalfEven (x : ℚ) : ℤ :=
  if x - ⌊x⌋ < 1/2 then ⌊x⌋
  else if 1/2 < x - ⌊x⌋ then ⌊x⌋ + 1
  else if ⌊x⌋ % 2 = 0 then ⌊x⌋ else ⌊x⌋ + 1

/-- `Series.round(d)`: round-half-to-even at `d` decimal places. -/
def roundTo (d : ℕ) (x : ℚ) : ℚ :=
  (roundHalfEven (x * 10 ^ d) : ℚ) / 10 ^ d

/-- The generated table stored into `st.session_state.marketing_data`:
one row per week, six channel columns and a Sales column. -/
structure MarketingDataset where
  nWeeks : ℕ
  spend : ℕ → Fin 6 → ℚ
  sales : ℕ → ℚ

/-- The generation pipeline applied to a given random stream: clamp,
seasonality, trend, Sales linear combination plus noise, outlier rows,
then `df[col].round(2)` for channels and `df[Sales].round(0)` — the
rounded values are what gets stored. -/
def generateBody (sinQ : ℕ → ℚ) (r : Randomness) (p : GenParams) :
    MarketingDataset where
  nWeeks := p.nWeeks
  spend := fun t j => roundTo 2 (outlierSpend sinQ r p t j)
  sales := fun t => roundTo 0 (outlierSales sinQ r p t)

/-- The generate-button handler: it begins with `np.random.seed(42)`, so
the ambient random state `prior` is discarded and replaced by the stream
determined by the seed (the code uses the literal 42; the seed is kept as
an argument here). -/
def generate (seedFn : ℕ → Randomness) (sinQ : ℕ → ℚ) (prior : Randomness)
    (seed : ℕ) (p : GenParams) : MarketingDataset :=
  generateBody sinQ (seedFn seed) p

/- ----------------------------------------------------------------
   Helper lemmas about rounding
   ---------------------------------------------------------------- -/

theorem roundHalfEven_nonneg {x : ℚ} (hx : 0 ≤ x) : 0 ≤ roundHalfEven x := by
  have hf : (0 : ℤ) ≤ ⌊x⌋ := Int.floor_nonneg.mpr hx
  unfold roundHalfEven
  split_ifs <;> omega

theorem roundTo_nonneg {d : ℕ} {x : ℚ} (hx : 0 ≤ x) : 0 ≤ roundTo d x := by
  unfold roundTo
  have h1 : (0 : ℚ) ≤ x * 10 ^ d := by positivity
  have h2 : (0 : ℤ) ≤ roundHalfEven (x * 10 ^ d) := roundHalfEven_nonneg h1
  have h3 : (0 : ℚ) ≤ (roundHalfEven (x * 10 ^ d) : ℚ) := by exact_mod_cast h2
  positivity

/- ----------------------------------------------------------------
   C2: determinism of generation
   ---------------------------------------------------------------- -/

/-- C2: calling the generator twice with the same parameters and the same
seed produces value-for-value identical datasets, whatever the ambient
random state was before each call — `np.random.seed` at the head of the
handler makes the output a function of the seed and the parameters only. -/
theorem generate_deterministic_given_seed (seedFn : ℕ → Randomness)
    (sinQ : ℕ → ℚ) (prior₁ prior₂ : Randomness) (seed : ℕ) (p : GenParams) :
    (∀ t j, (generate seedFn sinQ prior₁ seed p).spend t j =
      (generate seedFn sinQ prior₂ seed p).spend t j) ∧
    (∀ t, (generate seedFn sinQ prior₁ seed p).sales t =
      (generate seedFn sinQ prior₂ seed p).sales t) ∧
    generate seedFn sinQ prior₁ seed p = generate seedFn sinQ prior₂ seed p :=
  ⟨fun _ _ => rfl, fun _ => rfl, rfl⟩

/- ----------------------------------------------------------------
   C3: non-negativity of generated channel spend
   ---------------------------------------------------------------- -/

/-- C3: every channel-spend value of the generated dataset is
non-negative: the clamp `np.maximum(spend_data, 0)` makes the draws
non-negative, and the seasonality, trend, outlier and rounding steps all
preserve non-negativity (the seasonal factor needs only that the sine
values lie in `[-1, 1]`). -/
theorem generated_spend_nonneg (seedFn : ℕ → Randomness) (sinQ : ℕ → ℚ)
    (prior : Randomness) (seed : ℕ) (p : GenParams)
    (hsin : ∀ t, |sinQ t| ≤ 1) (t : ℕ) (j : Fin 6) :
    0 ≤ clampedSpend (seedFn seed) p t j ∧
    0 ≤ seasonedSpend sinQ (seedFn seed) p t j ∧
    0 ≤ trendedSpend sinQ (seedFn seed) p t j ∧
    0 ≤ outlierSpend sinQ (seedFn seed) p t j ∧
    0 ≤ (generate seedFn sinQ prior seed p).spend t j := by
  set r := seedFn seed with hr
  have h0 : 0 ≤ clampedSpend r p t j := le_max_right _ 0
  have hfac : 0 ≤ seasonalFactor sinQ t := by
    have := abs_le.mp (hsin t)
    unfold seasonalFactor
    linarith [this.1]
  have h1 : 0 ≤ seasonedSpend sinQ r p t j := by
    unfold seasonedSpend
    split_ifs
    · exact mul_nonneg h0 hfac
    · exact h0
  have htr : 0 ≤ trendFactor t := by
    unfold trendFactor
    positivity
  have h2 : 0 ≤ trendedSpend sinQ r p t j := by
    unfold trendedSpend
    split_ifs
    · exact mul_nonneg h1 htr
    · exact h1
  have h3 : 0 ≤ outlierSpend sinQ r p t j := by
    unfold outlierSpend
    split_ifs
    · linarith
    · exact h2
  exact ⟨h0, h1, h2, h3, roundTo_nonneg h3⟩

/-- Concrete sine stand-in used by the concrete instantiations. -/
def cSinQ : ℕ → ℚ := fun _ => 0

/-- A concrete random stream: the week-0, channel-0 spend draw is 1/3 and
every other draw (and every noise value) is 0. -/
def cRand4 : Randomness where
  mvnDraw := fun _ _ t j => if t = 0 ∧ j = 0 then 1/3 else 0
  normalDraw := fun _ _ _ => 0

/-- Concrete parameters: one week, base sales 100, no noise, no
seasonality, no trend, no outliers. -/
def cParams4 : GenParams :=
  ⟨1, CorrScenario.low, 100, 0, false, false, false⟩

/-- The dataset generated from the concrete stream and parameters. -/
def cDataset4 : MarketingDataset := generateBody cSinQ cRand4 cParams4

theorem generated_spend_nonneg_witness :
    0 ≤ (generate (fun _ => cRand4) cSinQ cRand4 42 cParams4).spend 0 0 :=
  (generated_spend_nonneg (fun _ => cRand4) cSinQ cRand4 42 cParams4
    (fun t => by norm_num [cSinQ]) 0 0).2.2.2.2

/- ----------------------------------------------------------------
   C4: the Sales linear identity
   ---------------------------------------------------------------- -/

/-- The channel-by-channel Sales accumulation loop computes base sales
plus the linear combination of the (seasonality- and trend-shaped)
channel values with the ground-truth coefficients. -/
theorem salesLin_eq_sum (sinQ : ℕ → ℚ) (r : Randomness) (p : GenParams)
    (t : ℕ) :
    salesLin sinQ r p t =
      p.baseSales + ∑ j : Fin 6, trendedSpend sinQ r p t j * trueCoef j := by
  rw [salesLin, show (List.finRange 6) = [0, 1, 2, 3, 4, 5] from rfl]
  simp only [List.foldl, Fin.sum_univ_six]
  ring

/-- C4 (amended): at the point where the code computes it — after the
seasonal and trend shaping of the channels, before the outlier scaling
and before the rounding into the stored table — the Sales value is exactly
base sales plus the sum over channels of (current channel value × its
ground-truth coefficient) plus the noise draw, and the scale argument of
that noise draw is `base_sales * noise_level / 100`, i.e. `noise_pct`
percent of base sales. -/
theorem sales_precomputation_linear_form (sinQ : ℕ → ℚ) (r : Randomness)
    (p : GenParams) (t : ℕ) :
    salesPre sinQ r p t =
      p.baseSales + (∑ j : Fin 6, trendedSpend sinQ r p t j * trueCoef j)
        + noiseAt r p t ∧
    noiseAt r p t = r.normalDraw (p.baseSales * p.noisePct / 100) p.nWeeks t := by
  refine ⟨?_, rfl⟩
  rw [salesPre, salesLin_eq_sum]

set_option maxRecDepth 8000

/-- C4 (counterexample to the claim as stated): because the stored table
holds rounded values, the stored Sales entry is not in general base sales
plus the linear combination of the stored channel values plus the noise
draw: with a single week, base sales 100, zero noise and a lone channel-0
draw of 1/3, the stored Sales value is 101 while the claimed right-hand
side is 100 + 0.33 × 2.5 = 100.825. -/
theorem stored_sales_ne_linear_combination :
    cDataset4.sales 0 ≠
      cParams4.baseSales + (∑ j : Fin 6, cDataset4.spend 0 j * trueCoef j)
        + noiseAt cRand4 cParams4 0 := by
  have hsp : ∀ j : Fin 6, cDataset4.spend 0 j = if j = 0 then 33/100 else 0 := by
    intro j
    fin_cases j <;>
      simp +decide only [cDataset4, generateBody, outlierSpend, trendedSpend,
        seasonedSpend, clampedSpend, rawSpend, cRand4, cParams4, cSinQ,
        isOutlierWeek, roundTo, roundHalfEven] <;>
      norm_num [Int.fract]
  have hl : salesLin cSinQ cRand4 cParams4 0 = 605/6 := by
    rw [salesLin, show (List.finRange 6) = [0, 1, 2, 3, 4, 5] from rfl]
    simp +decide only [List.foldl, trendedSpend, seasonedSpend, clampedSpend,
      rawSpend, cRand4, cParams4, cSinQ, trueCoef]
    norm_num
  have ho : outlierSales cSinQ cRand4 cParams4 0 = 605/6 := by
    rw [outlierSales, if_neg]
    · rw [salesPre, hl]
      norm_num [noiseAt, noiseScale, cRand4]
    · simp [cParams4]
  have hsl : cDataset4.sales 0 = 101 := by
    show roundTo 0 (outlierSales cSinQ cRand4 cParams4 0) = 101
    rw [ho]
    norm_num [roundTo, roundHalfEven, Int.fract]
  intro h
  rw [hsl, Fin.sum_univ_six] at h
  simp only [hsp] at h
  simp +decide only [trueCoef, cParams4, noiseAt, noiseScale, cRand4] at h
  norm_num at h

/- ----------------------------------------------------------------
   C5: rounding and the CSV export
   ---------------------------------------------------------------- -/

/-- The value table serialized by the CSV download button
(`st.session_state.marketing_data.to_csv()`): one row per stored week,
the six channel columns followed by the Sales column, with exactly the
values held by the stored dataset. -/
def csvRows (d : MarketingDataset) : List (List ℚ) :=
  (List.range d.nWeeks).map
    (fun t => ((List.finRange 6).map (fun j => d.spend t j)) ++ [d.sales t])

/-- C5 (amended): the rounding (2 decimal places for channel spend, 0 for
Sales) is applied to the dataset itself before it is stored — every value
the diagnostic components later consume is the rounded one — and the CSV
export serializes exactly those stored rounded values. -/
theorem rounding_applied_before_storage (sinQ : ℕ → ℚ) (r : Randomness)
    (p : GenParams) (t : ℕ) (j : Fin 6) :
    (generateBody sinQ r p).spend t j = roundTo 2 (outlierSpend sinQ r p t j) ∧
    (generateBody sinQ r p).sales t = roundTo 0 (outlierSales sinQ r p t) ∧
    csvRows (generateBody sinQ r p) =
      (List.range p.nWeeks).map
        (fun s => ((List.finRange 6).map
          (fun i => roundTo 2 (outlierSpend sinQ r p s i)))
          ++ [roundTo 0 (outlierSales sinQ r p s)]) :=
  ⟨rfl, rfl, rfl⟩

/-- C5 (counterexample to the claim as stated): the core stored dataset
does not hold the unrounded values — with a channel-0 draw of 1/3 the
pipeline value before rounding is 1/3 but the stored value is 0.33. -/
theorem stored_spend_ne_unrounded :
    cDataset4.spend 0 0 = 33/100 ∧
    outlierSpend cSinQ cRand4 cParams4 0 0 = 1/3 ∧
    cDataset4.spend 0 0 ≠ outlierSpend cSinQ cRand4 cParams4 0 0 := by
  have h1 : outlierSpend cSinQ cRand4 cParams4 0 0 = 1/3 := by
    simp +decide only [outlierSpend, trendedSpend, seasonedSpend, clampedSpend,
      rawSpend, cRand4, cParams4, cSinQ]
    norm_num
  have h2 : cDataset4.spend 0 0 = 33/100 := by
    show roundTo 2 (outlierSpend cSinQ cRand4 cParams4 0 0) = 33/100
    rw [h1]
    norm_num [roundTo, roundHalfEven, Int.fract]
  refine ⟨h2, h1, ?_⟩
  rw [h1, h2]
  norm_num

/- ----------------------------------------------------------------
   C10: the Black-Friday outlier rows
   ---------------------------------------------------------------- -/

/-- C10 (amended): when outlier events are enabled, the generation scales
every column of rows 46, 98 and 150 (only those below the period count)
by 2.5, the already-computed Sales column included; on those rows the
outcome stops satisfying the linear identity
`outcome = base + Σ (spend × coefficient) + noise` provided that
`base + noise` is nonzero on the row (the only way the identity can
survive the scaling), while every other row is untouched by the outlier
step and still satisfies the identity. -/
theorem outlier_scaling_breaks_linear_identity (sinQ : ℕ → ℚ)
    (r : Randomness) (p : GenParams) (hout : p.outliers = true) (t : ℕ) :
    (isOutlierWeek t → t < p.nWeeks →
      (∀ j, outlierSpend sinQ r p t j = 5/2 * trendedSpend sinQ r p t j) ∧
      outlierSales sinQ r p t = 5/2 * salesPre sinQ r p t ∧
      (p.baseSales + noiseAt r p t ≠ 0 →
        outlierSales sinQ r p t ≠
          p.baseSales + (∑ j : Fin 6, outlierSpend sinQ r p t j * trueCoef j)
            + noiseAt r p t)) ∧
    (¬ (isOutlierWeek t ∧ t < p.nWeeks) →
      (∀ j, outlierSpend sinQ r p t j = trendedSpend sinQ r p t j) ∧
      outlierSales sinQ r p t = salesPre sinQ r p t ∧
      outlierSales sinQ r p t =
        p.baseSales + (∑ j : Fin 6, outlierSpend sinQ r p t j * trueCoef j)
          + noiseAt r p t) := by
  constructor
  · intro hw hlt
    have hc : (p.outliers : Prop) ∧ isOutlierWeek t ∧ t < p.nWeeks :=
      ⟨hout, hw, hlt⟩
    have hspend : ∀ j, outlierSpend sinQ r p t j =
        5/2 * trendedSpend sinQ r p t j := by
      intro j
      rw [outlierSpend, if_pos hc]
    have hsales : outlierSales sinQ r p t = 5/2 * salesPre sinQ r p t := by
      rw [outlierSales, if_pos hc]
    refine ⟨hspend, hsales, ?_⟩
    intro hne heq
    apply hne
    have hsum : (∑ j : Fin 6, outlierSpend sinQ r p t j * trueCoef j) =
        5/2 * ∑ j : Fin 6, trendedSpend sinQ r p t j * trueCoef j := by
      rw [Finset.mul_sum]
      exact Finset.sum_congr rfl fun j _ => by rw [hspend j]; ring
    rw [hsales, hsum, salesPre, salesLin_eq_sum] at heq
    linarith
  · intro hnc
    have hc : ¬ ((p.outliers : Prop) ∧ isOutlierWeek t ∧ t < p.nWeeks) :=
      fun h => hnc ⟨h.2.1, h.2.2⟩
    have hspend : ∀ j, outlierSpend sinQ r p t j = trendedSpend sinQ r p t j := by
      intro j
      rw [outlierSpend, if_neg hc]
    have hsales : outlierSales sinQ r p t = salesPre sinQ r p t := by
      rw [outlierSales, if_neg hc]
    refine ⟨hspend, hsales, ?_⟩
    have hsum : (∑ j : Fin 6, outlierSpend sinQ r p t j * trueCoef j) =
        ∑ j : Fin 6, trendedSpend sinQ r p t j * trueCoef j :=
      Finset.sum_congr rfl fun j _ => by rw [hspend j]
    rw [hsales, hsum, salesPre, salesLin_eq_sum]

/-- Concrete parameters for the outlier-row analyses: 47 weeks, outliers
enabled, base sales 100. -/
def cParams10 : GenParams :=
  ⟨47, CorrScenario.low, 100, 10, false, false, true⟩

/-- Concrete stream with zero spend draws and constant noise 1. -/
def cRand10w : Randomness where
  mvnDraw := fun _ _ _ _ => 0
  normalDraw := fun _ _ _ => 1

/-- Concrete stream with zero spend draws and constant noise −100, the
degenerate case where base sales plus noise is exactly zero. -/
def cRand10c : Randomness where
  mvnDraw := fun _ _ _ _ => 0
  normalDraw := fun _ _ _ => -100

theorem outlier_scaling_breaks_linear_identity_witness :
    outlierSales cSinQ cRand10w cParams10 46 ≠
      cParams10.baseSales
        + (∑ j : Fin 6, outlierSpend cSinQ cRand10w cParams10 46 j * trueCoef j)
        + noiseAt cRand10w cParams10 46 :=
  (((outlier_scaling_breaks_linear_identity cSinQ cRand10w cParams10 rfl 46).1
      (Or.inl rfl) (by norm_num [cParams10])).2.2)
    (by norm_num [cParams10, noiseAt, noiseScale, cRand10w])

/-- C10 (counterexample to the claim as stated): on an outlier row the
outcome can still satisfy the linear identity — with zero spend draws,
base sales 100 and a noise draw of −100 on row 46, the scaled row still
satisfies `outcome = base + Σ (spend × coefficient) + noise`, both before
rounding and in the stored dataset. -/
theorem outlier_row_identity_can_hold :
    cParams10.outliers = true ∧
    outlierSales cSinQ cRand10c cParams10 46 =
      5/2 * salesPre cSinQ cRand10c cParams10 46 ∧
    outlierSales cSinQ cRand10c cParams10 46 =
      cParams10.baseSales
        + (∑ j : Fin 6, outlierSpend cSinQ cRand10c cParams10 46 j * trueCoef j)
        + noiseAt cRand10c cParams10 46 ∧
    (generateBody cSinQ cRand10c cParams10).sales 46 =
      cParams10.baseSales
        + (∑ j : Fin 6,
            (generateBody cSinQ cRand10c cParams10).spend 46 j * trueCoef j)
        + noiseAt cRand10c cParams10 46 := by
  have hts : ∀ j, trendedSpend cSinQ cRand10c cParams10 46 j = 0 := by
    intro j
    simp [trendedSpend, seasonedSpend, clampedSpend, rawSpend, cRand10c,
      cParams10, cSinQ]
  have hcond : (cParams10.outliers : Prop) ∧ isOutlierWeek 46 ∧
      46 < cParams10.nWeeks := ⟨rfl, Or.inl rfl, by norm_num [cParams10]⟩
  have hnoise : noiseAt cRand10c cParams10 46 = -100 := rfl
  have hs0 : (∑ j : Fin 6,
      trendedSpend cSinQ cRand10c cParams10 46 j * trueCoef j) = 0 :=
    Finset.sum_eq_zero fun j _ => by rw [hts j]; ring
  have hsp : salesPre cSinQ cRand10c cParams10 46 = 0 := by
    rw [salesPre, salesLin_eq_sum, hnoise, hs0]
    norm_num [cParams10]
  have hos : outlierSales cSinQ cRand10c cParams10 46 = 0 := by
    rw [outlierSales, if_pos hcond, hsp]
    ring
  have hosp : ∀ j, outlierSpend cSinQ cRand10c cParams10 46 j = 0 := by
    intro j
    rw [outlierSpend, if_pos hcond, hts]
    ring
  refine ⟨rfl, ?_, ?_, ?_⟩
  · rw [hos, hsp]
    ring
  · have hs1 : (∑ j : Fin 6,
        outlierSpend cSinQ cRand10c cParams10 46 j * trueCoef j) = 0 :=
      Finset.sum_eq_zero fun j _ => by rw [hosp j]; ring
    rw [hos, hnoise, hs1]
    norm_num [cParams10]
  · have hstored : (generateBody cSinQ cRand10c cParams10).sales 46 = 0 := by
      show roundTo 0 (outlierSales cSinQ cRand10c cParams10 46) = 0
      rw [hos]
      norm_num [roundTo, roundHalfEven, Int.fract]
    have hstoredSp : ∀ j, (generateBody cSinQ cRand10c cParams10).spend 46 j = 0 := by
      intro j
      show roundTo 2 (outlierSpend cSinQ cRand10c cParams10 46 j) = 0
      rw [hosp]
      norm_num [roundTo, roundHalfEven, Int.fract]
    have hs2 : (∑ j : Fin 6,
        (generateBody cSinQ cRand10c cParams10).spend 46 j * trueCoef j) = 0 :=
      Finset.sum_eq_zero fun j _ => by rw [hstoredSp j]; ring
    rw [hstored, hnoise, hs2]
    norm_num [cParams10]

/- ----------------------------------------------------------------
   Section 2: the RegularizedFitComparator preprocessing
   (source block: `X = df[channels].values`, `scaler = StandardScaler()`,
   `X_scaled = scaler.fit_transform(X)`, `train_size = int(0.8*len(X))`,
   slicing into train/test, then the residualization loop.)
   Matrices are row-indexed and column-indexed by naturals; `sq` abstracts
   the floating-point square root used inside the scaler and the Pearson
   correlation.
   ---------------------------------------------------------------- -/

/-- Column mean over the first `n` rows (the whole table the comparator
receives). -/
def colMean (X : ℕ → ℕ → ℚ) (n : ℕ) (j : ℕ) : ℚ :=
  (∑ t in Finset.range n, X t j) / n

/-- Column population variance over the first `n` rows (`StandardScaler`
uses the biased estimator). -/
def colVar (X : ℕ → ℕ → ℚ) (n : ℕ) (j : ℕ) : ℚ :=
  (∑ t in Finset.range n, (X t j - colMean X n j) ^ 2) / n

/-- The state a fitted `StandardScaler` stores: per-column `mean_` and
`scale_`. -/
structure FittedScaler where
  mean_ : ℕ → ℚ
  scale_ : ℕ → ℚ

/-- `StandardScaler().fit(X)` on the `n`-row table `X`: `mean_` is the
column mean, `scale_` the square root of the biased column variance with
zero variance replaced by 1 (sklearn `_handle_zeros_in_scale`). -/
def fitStandardScaler (sq : ℚ → ℚ) (X : ℕ → ℕ → ℚ) (n : ℕ) : FittedScaler where
  mean_ := fun j => colMean X n j
  scale_ := fun j => if colVar X n j = 0 then 1 else sq (colVar X n j)

/-- `scaler.transform`: center by `mean_` and divide by `scale_`. -/
def scalerTransform (s : FittedScaler) (X : ℕ → ℕ → ℚ) : ℕ → ℕ → ℚ :=
  fun t j => (X t j - s.mean_ j) / s.scale_ j

/-- `X_scaled = scaler.fit_transform(X)`: the code fits the scaler on the
FULL table (all `n` rows) and transforms the full table. -/
def scaledX (sq : ℚ → ℚ) (X : ℕ → ℕ → ℚ) (n : ℕ) : ℕ → ℕ → ℚ :=
  scalerTransform (fitStandardScaler sq X n) X

/-- `train_size = int(0.8 * len(X))`. -/
def trainSize (n : ℕ) : ℕ := 4 * n / 5

/-- `X_train = X_scaled[:train_size]` (row `t` is meaningful for
`t < trainSize n`). -/
def xTrain (sq : ℚ → ℚ) (X : ℕ → ℕ → ℚ) (n : ℕ) : ℕ → ℕ → ℚ :=
  fun t j => scaledX sq X n t j

/-- `X_test = X_scaled[train_size:]` (row `k` of the test split is row
`trainSize n + k` of the table). -/
def xTest (sq : ℚ → ℚ) (X : ℕ → ℕ → ℚ) (n : ℕ) : ℕ → ℕ → ℚ :=
  fun k j => scaledX sq X n (trainSize n + k) j

/- ----------------------------------------------------------------
   C1: where the scaler statistics come from
   ---------------------------------------------------------------- -/

/-- C1 (amended): the scaler statistics are computed from the FULL table —
`mean_` is the mean over all `n` rows, test rows included — and the same
full-data transform is applied to both the train slice and the test
slice; there is leakage, not train-only fitting. -/
theorem scaler_uses_full_data_statistics (sq : ℚ → ℚ) (X : ℕ → ℕ → ℚ)
    (n t k j : ℕ) :
    (fitStandardScaler sq X n).mean_ j = (∑ u in Finset.range n, X u j) / n ∧
    (fitStandardScaler sq X n).scale_ j =
      (if colVar X n j = 0 then 1 else sq (colVar X n j)) ∧
    xTrain sq X n t j =
      (X t j - colMean X n j) / (fitStandardScaler sq X n).scale_ j ∧
    xTest sq X n k j =
      (X (trainSize n + k) j - colMean X n j) /
        (fitStandardScaler sq X n).scale_ j :=
  ⟨rfl, rfl, rfl, rfl⟩

/-- A concrete 5-row, single-channel table: channel 0 holds 0,1,2,3,4. -/
def cX1 : ℕ → ℕ → ℚ := fun t j => if j = 0 then (t : ℚ) else 0

/-- The same table with only its test row (row 4, since
`trainSize 5 = 4`) changed to 100. -/
def cX1' : ℕ → ℕ → ℚ :=
  fun t j => if j = 0 then (if t = 4 then 100 else (t : ℚ)) else 0

/-- C1 (counterexample to the claim as stated): the two tables agree on
every training row (rows 0–3 of 5, `trainSize 5 = 4`) and differ only in
the test row, yet the fitted scaler means differ (2 versus 21.2) — so the
scaler statistics are not computed from the training split only, and
changing test-split values does change the stored mean. -/
theorem scaler_mean_changes_with_test_rows :
    trainSize 5 = 4 ∧
    cX1 0 0 = cX1' 0 0 ∧ cX1 1 0 = cX1' 1 0 ∧
    cX1 2 0 = cX1' 2 0 ∧ cX1 3 0 = cX1' 3 0 ∧
    (fitStandardScaler id cX1 5).mean_ 0 = 2 ∧
    (fitStandardScaler id cX1' 5).mean_ 0 = 106/5 ∧
    (fitStandardScaler id cX1 5).mean_ 0 ≠ (fitStandardScaler id cX1' 5).mean_ 0 := by
  refine ⟨rfl, rfl, rfl, rfl, rfl, ?_, ?_, ?_⟩ <;>
    norm_num [fitStandardScaler, colMean, cX1, cX1', Finset.sum_range_succ]

/- ----------------------------------------------------------------
   Vector statistics and simple ordinary least squares
   ---------------------------------------------------------------- -/

/-- Mean of the first `m` values of a sequence. -/
def vecMean (m : ℕ) (f : ℕ → ℚ) : ℚ := (∑ t in Finset.range m, f t) / m

/-- Population variance of the first `m` values. -/
def vecVar (m : ℕ) (f : ℕ → ℚ) : ℚ :=
  (∑ t in Finset.range m, (f t - vecMean m f) ^ 2) / m

/-- Population covariance of the first `m` values of two sequences. -/
def vecCov (m : ℕ) (f g : ℕ → ℚ) : ℚ :=
  (∑ t in Finset.range m, (f t - vecMean m f) * (g t - vecMean m g)) / m

/-- Pearson correlation; `sq` abstracts the floating-point square root
applied to the two variances. -/
def vecCorr (sq : ℚ → ℚ) (m : ℕ) (f g : ℕ → ℚ) : ℚ :=
  vecCov m f g / (sq (vecVar m f) * sq (vecVar m g))

/-- Slope of the least-squares line of `y` on `x` (what
`LinearRegression().fit` computes for a single feature with intercept). -/
def simpleSlope (m : ℕ) (x y : ℕ → ℚ) : ℚ := vecCov m x y / vecVar m x

/-- Intercept of the least-squares line of `y` on `x`. -/
def simpleIntercept (m : ℕ) (x y : ℕ → ℚ) : ℚ :=
  vecMean m y - simpleSlope m x y * vecMean m x

theorem vecMean_affine (m : ℕ) (hm : (m : ℚ) ≠ 0) (x y : ℕ → ℚ) (c s : ℚ) :
    vecMean m (fun t => y t - (c + s * x t)) =
      vecMean m y - c - s * vecMean m x := by
  unfold vecMean
  have h : (∑ t in Finset.range m, (y t - (c + s * x t))) =
      (∑ t in Finset.range m, y t) - m * c - s * ∑ t in Finset.range m, x t := by
    rw [Finset.sum_sub_distrib, Finset.sum_add_distrib, Finset.sum_const,
      Finset.card_range, nsmul_eq_mul, Finset.mul_sum]
    ring
  rw [h]
  field_simp

theorem vecVar_eq_zero_cov (m : ℕ) (x y : ℕ → ℚ) (h : vecVar m x = 0) :
    vecCov m x y = 0 := by
  rcases eq_or_ne (m : ℚ) 0 with hm | hm
  · unfold vecCov
    rw [hm, div_zero]
  · have hs : (∑ t in Finset.range m, (x t - vecMean m x) ^ 2) = 0 := by
      unfold vecVar at h
      rcases div_eq_zero_iff.mp h with h0 | h0
      · exact h0
      · exact absurd h0 hm
    have hall : ∀ t ∈ Finset.range m, x t - vecMean m x = 0 := by
      intro t ht
      have := (Finset.sum_eq_zero_iff_of_nonneg
        (fun u _ => sq_nonneg (x u - vecMean m x))).mp hs t ht
      exact (pow_eq_zero_iff two_ne_zero).mp this
    unfold vecCov
    rw [Finset.sum_eq_zero fun t ht => by rw [hall t ht]; ring, zero_div]

/-- Covariance between a regressor and the residual of the least-squares
line fitted on the same rows is exactly zero. -/
theorem cov_regressor_residual_zero (m : ℕ) (x y : ℕ → ℚ) :
    vecCov m x (fun t => y t -
      (simpleIntercept m x y + simpleSlope m x y * x t)) = 0 := by
  rcases eq_or_ne (m : ℚ) 0 with hm | hm
  · unfold vecCov
    rw [hm, div_zero]
  · set s := simpleSlope m x y with hs
    have hG : vecMean m (fun t => y t -
        (simpleIntercept m x y + s * x t)) = 0 := by
      rw [vecMean_affine m hm]
      unfold simpleIntercept
      ring
    have hcov : vecCov m x (fun t => y t -
        (simpleIntercept m x y + s * x t)) =
        vecCov m x y - s * vecVar m x := by
      unfold vecCov
      rw [hG]
      have hterm : ∀ t ∈ Finset.range m,
          (x t - vecMean m x) * ((y t - (simpleIntercept m x y + s * x t)) - 0) =
          (x t - vecMean m x) * (y t - vecMean m y)
            - s * (x t - vecMean m x) ^ 2 := by
        intro t _
        unfold simpleIntercept
        ring
      rw [Finset.sum_congr rfl hterm, Finset.sum_sub_distrib, ← Finset.mul_sum]
      unfold vecVar
      field_simp
    rw [hcov]
    rcases eq_or_ne (vecVar m x) 0 with hv | hv
    · rw [hv, vecVar_eq_zero_cov m x y hv]
      ring
    · rw [hs]
      unfold simpleSlope
      field_simp

/- ----------------------------------------------------------------
   C9: the sequential-residualization step
   (source: the loop `for i, channel in enumerate(channels): if i !=
   base_channel_idx: residual_model.fit(X_train[:, base], X_train[:, i])`
   followed by subtracting the prediction on train and test rows.)
   ---------------------------------------------------------------- -/

/-- Slope of the per-channel residualization regression: channel `i` of
the scaled training rows regressed on the base channel alone. -/
def residSlope (sq : ℚ → ℚ) (X : ℕ → ℕ → ℚ) (n base i : ℕ) : ℚ :=
  simpleSlope (trainSize n)
    (fun t => xTrain sq X n t base) (fun t => xTrain sq X n t i)

/-- Intercept of the per-channel residualization regression. -/
def residIntercept (sq : ℚ → ℚ) (X : ℕ → ℕ → ℚ) (n base i : ℕ) : ℚ :=
  simpleIntercept (trainSize n)
    (fun t => xTrain sq X n t base) (fun t => xTrain sq X n t i)

/-- `X_train_resid`: the base column is copied unchanged; every other
column is replaced by the residual of its regression on the base column. -/
def xTrainResid (sq : ℚ → ℚ) (X : ℕ → ℕ → ℚ) (n base : ℕ) : ℕ → ℕ → ℚ :=
  fun t i =>
    if i = base then xTrain sq X n t i
    else xTrain sq X n t i -
      (residIntercept sq X n base i + residSlope sq X n base i * xTrain sq X n t base)

/-- `X_test_resid`: same construction on the test rows, using the
coefficients fitted on the training rows. -/
def xTestResid (sq : ℚ → ℚ) (X : ℕ → ℕ → ℚ) (n base : ℕ) : ℕ → ℕ → ℚ :=
  fun k i =>
    if i = base then xTest sq X n k i
    else xTest sq X n k i -
      (residIntercept sq X n base i + residSlope sq X n base i * xTest sq X n k base)

/-- C9: after residualization the base channel column is exactly
unchanged on both splits; every other channel is replaced by the residual
of its least-squares regression on the base channel alone; and on the
training split the covariance — hence the Pearson correlation — between
the base channel and any residualized channel is exactly zero (the
floating-tolerance statement holds exactly in exact arithmetic). -/
theorem residualization_base_unchanged_orthogonal (sq : ℚ → ℚ)
    (X : ℕ → ℕ → ℚ) (n base i t : ℕ) (hi : i ≠ base) :
    xTrainResid sq X n base t base = xTrain sq X n t base ∧
    xTestResid sq X n base t base = xTest sq X n t base ∧
    xTrainResid sq X n base t i =
      xTrain sq X n t i -
        (residIntercept sq X n base i
          + residSlope sq X n base i * xTrain sq X n t base) ∧
    vecCov (trainSize n) (fun u => xTrain sq X n u base)
      (fun u => xTrainResid sq X n base u i) = 0 ∧
    vecCorr sq (trainSize n) (fun u => xTrain sq X n u base)
      (fun u => xTrainResid sq X n base u i) = 0 := by
  have h1 : xTrainResid sq X n base t base = xTrain sq X n t base := by
    rw [xTrainResid]
    simp
  have h2 : xTestResid sq X n base t base = xTest sq X n t base := by
    rw [xTestResid]
    simp
  have h3 : xTrainResid sq X n base t i =
      xTrain sq X n t i -
        (residIntercept sq X n base i
          + residSlope sq X n base i * xTrain sq X n t base) := by
    rw [xTrainResid]
    simp [hi]
  have hfun : (fun u => xTrainResid sq X n base u i) =
      (fun u => xTrain sq X n u i -
        (simpleIntercept (trainSize n)
            (fun v => xTrain sq X n v base) (fun v => xTrain sq X n v i)
          + simpleSlope (trainSize n)
              (fun v => xTrain sq X n v base) (fun v => xTrain sq X n v i)
            * xTrain sq X n u base)) := by
    funext u
    rw [xTrainResid]
    simp [hi, residIntercept, residSlope]
  have h4 : vecCov (trainSize n) (fun u => xTrain sq X n u base)
      (fun u => xTrainResid sq X n base u i) = 0 := by
    rw [hfun]
    exact cov_regressor_residual_zero (trainSize n)
      (fun v => xTrain sq X n v base) (fun v => xTrain sq X n v i)
  refine ⟨h1, h2, h3, h4, ?_⟩
  rw [vecCorr, h4, zero_div]

theorem residualization_base_unchanged_orthogonal_witness :
    vecCov (trainSize 5) (fun u => xTrain id cX1 5 u 1)
      (fun u => xTrainResid id cX1 5 1 u 0) = 0 :=
  (residualization_base_unchanged_orthogonal id cX1 5 1 0 0
    (by norm_num)).2.2.2.1

/- ----------------------------------------------------------------
   C6: the variance inflation factor
   (source: the loop `variance_inflation_factor(X, i)` over channels, and
   the explicit two-channel formula
   `vif = 1 / (1 - correlation**2) if abs(correlation) < 1 else
   float('inf')`.)
   ---------------------------------------------------------------- -/

/-- Total sum of squares of a response over the first `m` rows. -/
def ssTot (m : ℕ) (y : ℕ → ℚ) : ℚ :=
  ∑ t in Finset.range m, (y t - vecMean m y) ^ 2

/-- Residual sum of squares of the least-squares line of `y` on `x`. -/
def ssRes (m : ℕ) (x y : ℕ → ℚ) : ℚ :=
  ∑ t in Finset.range m,
    (y t - (simpleIntercept m x y + simpleSlope m x y * x t)) ^ 2

/-- The coefficient of determination of regressing `y` on the single
regressor `x`: `R² = 1 - SSres / SStot`. -/
def rSquared (m : ℕ) (x y : ℕ → ℚ) : ℚ := 1 - ssRes m x y / ssTot m y

/-- `VIF = 1 / (1 - R²)` with unit `R²` represented by the sentinel `⊤`
(the code's `float('inf')`), never an exception — the model of
`statsmodels.stats.outliers_influence.variance_inflation_factor` (a
library call, its source is not part of this repository) and of the
source's own two-channel formula with the `inf` fallback. -/
def vifOfR2 (r2 : ℚ) : WithTop ℚ :=
  if r2 = 1 then ⊤ else (((1 - r2)⁻¹ : ℚ) : WithTop ℚ)

/-- VIF of each column of a two-column design: column `i` is regressed on
the other column. -/
def vif2 (m : ℕ) (x y : ℕ → ℚ) : Fin 2 → WithTop ℚ :=
  fun i => if i = 0 then vifOfR2 (rSquared m y x) else vifOfR2 (rSquared m x y)

theorem vecVar_ne_zero_rows (m : ℕ) (x : ℕ → ℚ) (hv : vecVar m x ≠ 0) :
    (m : ℚ) ≠ 0 := by
  intro hm0
  apply hv
  unfold vecVar
  rw [hm0, div_zero]

theorem vecMean_linear (m : ℕ) (hm : (m : ℚ) ≠ 0) (x : ℕ → ℚ) (a b : ℚ) :
    vecMean m (fun t => a * x t + b) = a * vecMean m x + b := by
  unfold vecMean
  rw [Finset.sum_add_distrib, Finset.sum_const, Finset.card_range,
    nsmul_eq_mul, ← Finset.mul_sum]
  field_simp
  ring

theorem vecVar_linear (m : ℕ) (hm : (m : ℚ) ≠ 0) (x : ℕ → ℚ) (a b : ℚ) :
    vecVar m (fun t => a * x t + b) = a ^ 2 * vecVar m x := by
  unfold vecVar
  rw [vecMean_linear m hm x a b]
  have h : ∀ t ∈ Finset.range m,
      ((a * x t + b) - (a * vecMean m x + b)) ^ 2 =
        a ^ 2 * (x t - vecMean m x) ^ 2 := fun t _ => by ring
  rw [Finset.sum_congr rfl h, ← Finset.mul_sum, mul_div_assoc]

theorem ssTot_sum_ne_zero (m : ℕ) (x : ℕ → ℚ) (hv : vecVar m x ≠ 0) :
    (∑ t in Finset.range m, (x t - vecMean m x) ^ 2) ≠ 0 := by
  intro h0
  apply hv
  unfold vecVar
  rw [h0, zero_div]

/-- Regressing an exact affine image `a·x + b` (`a ≠ 0`) of the regressor
on the regressor gives a perfect fit: `R² = 1`. -/
theorem rSquared_perfect (m : ℕ) (x : ℕ → ℚ) (a b : ℚ) (ha : a ≠ 0)
    (hv : vecVar m x ≠ 0) :
    rSquared m x (fun t => a * x t + b) = 1 := by
  have hm : (m : ℚ) ≠ 0 := vecVar_ne_zero_rows m x hv
  have hmean : vecMean m (fun t => a * x t + b) = a * vecMean m x + b :=
    vecMean_linear m hm x a b
  have hcov : vecCov m x (fun t => a * x t + b) = a * vecVar m x := by
    unfold vecCov
    rw [hmean]
    have h : ∀ t ∈ Finset.range m,
        (x t - vecMean m x) * ((a * x t + b) - (a * vecMean m x + b)) =
          a * (x t - vecMean m x) ^ 2 := fun t _ => by ring
    rw [Finset.sum_congr rfl h, ← Finset.mul_sum]
    unfold vecVar
    rw [mul_div_assoc]
  have hslope : simpleSlope m x (fun t => a * x t + b) = a := by
    unfold simpleSlope
    rw [hcov, mul_div_assoc, div_self hv, mul_one]
  have hint : simpleIntercept m x (fun t => a * x t + b) = b := by
    unfold simpleIntercept
    rw [hslope, hmean]
    ring
  have hres : ssRes m x (fun t => a * x t + b) = 0 := by
    unfold ssRes
    exact Finset.sum_eq_zero fun t _ => by rw [hint, hslope]; ring
  have htot : ssTot m (fun t => a * x t + b) =
      a ^ 2 * ∑ t in Finset.range m, (x t - vecMean m x) ^ 2 := by
    unfold ssTot
    rw [hmean]
    have h : ∀ t ∈ Finset.range m,
        ((a * x t + b) - (a * vecMean m x + b)) ^ 2 =
          a ^ 2 * (x t - vecMean m x) ^ 2 := fun t _ => by ring
    rw [Finset.sum_congr rfl h, ← Finset.mul_sum]
  have htne : ssTot m (fun t => a * x t + b) ≠ 0 := by
    rw [htot]
    exact mul_ne_zero (pow_ne_zero 2 ha) (ssTot_sum_ne_zero m x hv)
  rw [rSquared, hres, zero_div, sub_zero]

/-- C6: the VIF of a channel is `1/(1 - R²)` of the regression of that
channel on the other channel, with a unit `R²` mapped to the sentinel `⊤`
instead of raising; and when the second channel is an exact linear copy
`a·x + b` of the first (`a ≠ 0`, nonconstant `x`), both regressions have
`R² = 1` and both VIFs are the infinity sentinel. -/
theorem vif_formula_and_collinearity_sentinel (m : ℕ) (x : ℕ → ℚ)
    (a b : ℚ) (ha : a ≠ 0) (hv : vecVar m x ≠ 0) :
    (∀ z w : ℕ → ℚ, rSquared m z w ≠ 1 →
      vif2 m z w 1 = (((1 - rSquared m z w)⁻¹ : ℚ) : WithTop ℚ)) ∧
    rSquared m x (fun t => a * x t + b) = 1 ∧
    rSquared m (fun t => a * x t + b) x = 1 ∧
    vif2 m x (fun t => a * x t + b) 0 = ⊤ ∧
    vif2 m x (fun t => a * x t + b) 1 = ⊤ := by
  have h2 : rSquared m x (fun t => a * x t + b) = 1 :=
    rSquared_perfect m x a b ha hv
  have hm : (m : ℚ) ≠ 0 := vecVar_ne_zero_rows m x hv
  have h3 : rSquared m (fun t => a * x t + b) x = 1 := by
    have hx : x = fun t => a⁻¹ * ((fun u => a * x u + b) t) + (-(b * a⁻¹)) := by
      funext t
      field_simp
    have hvy : vecVar m (fun t => a * x t + b) ≠ 0 := by
      rw [vecVar_linear m hm x a b]
      exact mul_ne_zero (pow_ne_zero 2 ha) hv
    calc rSquared m (fun t => a * x t + b) x
        = rSquared m (fun t => a * x t + b)
            (fun t => a⁻¹ * ((fun u => a * x u + b) t) + (-(b * a⁻¹))) := by
          rw [← hx]
      _ = 1 := rSquared_perfect m (fun t => a * x t + b) a⁻¹ (-(b * a⁻¹))
            (inv_ne_zero ha) hvy
  refine ⟨?_, h2, h3, ?_, ?_⟩
  · intro z w hne
    show (if (1 : Fin 2) = 0 then vifOfR2 (rSquared m w z)
      else vifOfR2 (rSquared m z w)) = _
    rw [if_neg (by decide), vifOfR2, if_neg hne]
  · show (if (0 : Fin 2) = 0 then vifOfR2 (rSquared m (fun t => a * x t + b) x)
      else vifOfR2 (rSquared m x (fun t => a * x t + b))) = ⊤
    rw [if_pos rfl, vifOfR2, if_pos h3]
  · show (if (1 : Fin 2) = 0 then vifOfR2 (rSquared m (fun t => a * x t + b) x)
      else vifOfR2 (rSquared m x (fun t => a * x t + b))) = ⊤
    rw [if_neg (by decide), vifOfR2, if_pos h2]

theorem vif_formula_and_collinearity_sentinel_witness :
    vif2 2 (fun t => (t : ℚ)) (fun t => 2 * (t : ℚ) + 1) 0 = ⊤ ∧
    vif2 2 (fun t => (t : ℚ)) (fun t => 2 * (t : ℚ) + 1) 1 = ⊤ :=
  ⟨(vif_formula_and_collinearity_sentinel 2 (fun t => (t : ℚ)) 2 1
      (by norm_num)
      (by norm_num [vecVar, vecMean, Finset.sum_range_succ])).2.2.2.1,
   (vif_formula_and_collinearity_sentinel 2 (fun t => (t : ℚ)) 2 1
      (by norm_num)
      (by norm_num [vecVar, vecMean, Finset.sum_range_succ])).2.2.2.2⟩

/- ----------------------------------------------------------------
   C7: bootstrap resampling and the ambient random state
   (source: the `Run Bootstrap Analysis` block — a loop of
   `sample_idx = np.random.choice(len(df), size=len(df), replace=True)`
   followed by a LinearRegression fit on the resampled rows.  No
   `np.random.seed` call appears anywhere in that block: the indices come
   from whatever the ambient global NumPy stream currently is.)
   ---------------------------------------------------------------- -/

/-- One resampled row index: `np.random.choice(n)` drawn from the ambient
raw stream `g`; iteration `i` consumes draws `i*n … i*n + n - 1`, and a
draw is turned into an index in `[0, n)` deterministically (modelled by
reduction mod `n`). -/
def sampleIdx (g : ℕ → ℕ) (n i k : ℕ) : ℕ := g (i * n + k) % n

/-- The index lists of all bootstrap iterations, as drawn from the
ambient stream `g` by the loop. -/
def bootstrapIndices (g : ℕ → ℕ) (n iters : ℕ) : List (List ℕ) :=
  (List.range iters).map (fun i => (List.range n).map (sampleIdx g n i))

/-- The ambient stream as it stands after `c` draws have been consumed —
what a second button press sees after a first run. -/
def shiftStream (g : ℕ → ℕ) (c : ℕ) : ℕ → ℕ := fun k => g (c + k)

/-- The per-channel coefficient lists of the bootstrap loop: for each
iteration the model is fitted on the resampled rows (`fit` is the
deterministic coefficient map of `LinearRegression().fit`, abstracted)
and its coefficient for channel `j` is appended. -/
def bootstrapCoefs (fit : List (Fin 6 → ℚ) → List ℚ → Fin 6 → ℚ)
    (X : ℕ → Fin 6 → ℚ) (y : ℕ → ℚ) (n : ℕ) (g : ℕ → ℕ) (iters : ℕ) :
    Fin 6 → List ℚ :=
  fun j => (List.range iters).map (fun i =>
    fit ((List.range n).map (fun k => X (sampleIdx g n i k)))
        ((List.range n).map (fun k => y (sampleIdx g n i k))) j)

/-- C7 (amended): the bootstrap loop is NOT independently seeded — its
resampled indices are a function of the ambient global stream at entry.
What does hold: only the first `iters * n` draws of the ambient stream
matter, so two runs whose ambient streams agree on that prefix draw
identical index sequences and produce identical per-channel coefficient
lists. -/
theorem bootstrap_determined_by_ambient_stream (g g' : ℕ → ℕ)
    (n iters : ℕ) (fit : List (Fin 6 → ℚ) → List ℚ → Fin 6 → ℚ)
    (X : ℕ → Fin 6 → ℚ) (y : ℕ → ℚ)
    (h : ∀ k, k < iters * n → g k = g' k) :
    bootstrapIndices g n iters = bootstrapIndices g' n iters ∧
    ∀ j, bootstrapCoefs fit X y n g iters j =
      bootstrapCoefs fit X y n g' iters j := by
  have hIdx : ∀ i k, i < iters → k < n → sampleIdx g n i k = sampleIdx g' n i k := by
    intro i k hi hk
    unfold sampleIdx
    rw [h (i * n + k)]
    calc i * n + k < i * n + n := Nat.add_lt_add_left hk _
      _ = (i + 1) * n := by ring
      _ ≤ iters * n := Nat.mul_le_mul_right n hi
  constructor
  · unfold bootstrapIndices
    apply List.map_congr_left
    intro i hi
    apply List.map_congr_left
    intro k hk
    exact hIdx i k (List.mem_range.mp hi) (List.mem_range.mp hk)
  · intro j
    unfold bootstrapCoefs
    apply List.map_congr_left
    intro i hi
    have hX : ((List.range n).map (fun k => X (sampleIdx g n i k))) =
        ((List.range n).map (fun k => X (sampleIdx g' n i k))) := by
      apply List.map_congr_left
      intro k hk
      rw [hIdx i k (List.mem_range.mp hi) (List.mem_range.mp hk)]
    have hy : ((List.range n).map (fun k => y (sampleIdx g n i k))) =
        ((List.range n).map (fun k => y (sampleIdx g' n i k))) := by
      apply List.map_congr_left
      intro k hk
      rw [hIdx i k (List.mem_range.mp hi) (List.mem_range.mp hk)]
    rw [hX, hy]

/-- A concrete ambient stream whose first two draws are 0 and whose later
draws are 1. -/
def cStream7 : ℕ → ℕ := fun k => if k < 2 then 0 else 1

/-- Ambient stream agreeing with `cStream7` on the consumed prefix. -/
def cStream7a : ℕ → ℕ := fun _ => 0

/-- Ambient stream differing from `cStream7a` beyond the consumed
prefix. -/
def cStream7b : ℕ → ℕ := fun k => if k < 2 then 0 else 5

/-- A concrete deterministic fitter. -/
def cFit7 : List (Fin 6 → ℚ) → List ℚ → Fin 6 → ℚ := fun _ _ _ => 0

theorem bootstrap_determined_by_ambient_stream_witness :
    bootstrapIndices cStream7a 2 1 = bootstrapIndices cStream7b 2 1 :=
  (bootstrap_determined_by_ambient_stream cStream7a cStream7b 2 1 cFit7
    (fun _ _ => 0) (fun _ => 0) (by decide)).1

/-- C7 (counterexample to the claim as stated): the bootstrap draws are
not reproducible across runs, because nothing reseeds the generator — a
run over a 2-row dataset starting from the ambient stream `cStream7`
resamples indices `[[0, 0]]`, while an immediately following identical
run (same data, same iteration count, the stream merely advanced by the
two consumed draws) resamples `[[1, 1]]`. -/
theorem bootstrap_consecutive_runs_differ :
    bootstrapIndices cStream7 2 1 = [[0, 0]] ∧
    bootstrapIndices (shiftStream cStream7 (1 * 2)) 2 1 = [[1, 1]] ∧
    bootstrapIndices cStream7 2 1 ≠
      bootstrapIndices (shiftStream cStream7 (1 * 2)) 2 1 := by decide

/- ----------------------------------------------------------------
   C8: bootstrap coefficient summary statistics
   (source: the `coef_stats` DataFrame — np.mean, np.std, np.min, np.max,
   `CV% = 100*np.std/abs(np.mean) if np.mean != 0 else 0` — and
   `get_stability_indicator`.)
   ---------------------------------------------------------------- -/

/-- `np.mean` of a coefficient list. -/
def listMean (xs : List ℚ) : ℚ := xs.sum / xs.length

/-- `np.std(xs)**2`: the biased (population) variance — NumPy `std`
divides by the length, not by length minus one. -/
def listPopVar (xs : List ℚ) : ℚ :=
  (xs.map (fun x => (x - listMean xs) ^ 2)).sum / xs.length

/-- `np.std`: square root (abstracted as `sq`) of the population
variance. -/
def listStd (sq : ℚ → ℚ) (xs : List ℚ) : ℚ := sq (listPopVar xs)

/-- `np.min` of a nonempty list (0 by convention for the empty list). -/
def listMin : List ℚ → ℚ
  | [] => 0
  | x :: t => t.foldl min x

/-- `np.max` of a nonempty list (0 by convention for the empty list). -/
def listMax : List ℚ → ℚ
  | [] => 0
  | x :: t => t.foldl max x

/-- `CV% = 100 * np.std / abs(np.mean) if np.mean != 0 else 0`. -/
def cvPct (sq : ℚ → ℚ) (xs : List ℚ) : ℚ :=
  if listMean xs ≠ 0 then 100 * listStd sq xs / |listMean xs| else 0

/-- The three stability labels of `get_stability_indicator`. -/
inductive Stability
  | stable
  | moderate
  | unstable
deriving DecidableEq, Repr

/-- `get_stability_indicator`: stable if `cv < 20`, else moderate if
`cv < 50`, else unstable. -/
def getStabilityIndicator (cv : ℚ) : Stability :=
  if cv < 20 then Stability.stable
  else if cv < 50 then Stability.moderate
  else Stability.unstable

/-- The labelling the claim describes, written from its words: moderate
for CV from 20 to 50, unstable strictly above 50 (kept only to be
compared with the code's labelling). -/
def claimedStability (cv : ℚ) : Stability :=
  if cv < 20 then Stability.stable
  else if cv ≤ 50 then Stability.moderate
  else Stability.unstable

/-- One row of the `coef_stats` table plus its stability column. -/
structure CoefStatsRow where
  meanV : ℚ
  stdDev : ℚ
  minV : ℚ
  maxV : ℚ
  cv : ℚ
  stability : Stability
deriving DecidableEq, Repr

/-- The per-channel row as the code builds it: mean, population std, min,
max, CV%, and the stability label applied to the CV% column. -/
def coefStatsRow (sq : ℚ → ℚ) (xs : List ℚ) : CoefStatsRow :=
  ⟨listMean xs, listStd sq xs, listMin xs, listMax xs, cvPct sq xs,
    getStabilityIndicator (cvPct sq xs)⟩

/-- C8 (amended): the reported per-channel statistics are the mean, the
population standard deviation (the variance divisor is the list length,
not length minus one), the min, the max and the coefficient of variation
`100·std/|mean|`, defined as exactly 0 when the mean is exactly 0; the
stability label is stable for CV below 20, moderate for CV at least 20
and below 50, and unstable for CV at least 50 (the code labels CV = 50
unstable). -/
theorem coef_stats_formulas_and_thresholds (sq : ℚ → ℚ) (xs : List ℚ)
    (cv : ℚ) :
    coefStatsRow sq xs =
      ⟨listMean xs, listStd sq xs, listMin xs, listMax xs, cvPct sq xs,
        getStabilityIndicator (cvPct sq xs)⟩ ∧
    listMean xs = xs.sum / xs.length ∧
    listStd sq xs = sq ((xs.map fun x => (x - listMean xs) ^ 2).sum / xs.length) ∧
    (listMean xs = 0 → cvPct sq xs = 0) ∧
    (listMean xs ≠ 0 → cvPct sq xs = 100 * listStd sq xs / |listMean xs|) ∧
    (cv < 20 → getStabilityIndicator cv = Stability.stable) ∧
    (20 ≤ cv → cv < 50 → getStabilityIndicator cv = Stability.moderate) ∧
    (50 ≤ cv → getStabilityIndicator cv = Stability.unstable) := by
  refine ⟨rfl, rfl, rfl, ?_, ?_, ?_, ?_, ?_⟩
  · intro h
    rw [cvPct, if_neg (fun hne => hne h)]
  · intro h
    rw [cvPct, if_pos h]
  · intro h
    rw [getStabilityIndicator, if_pos h]
  · intro h20 h50
    rw [getStabilityIndicator, if_neg (not_lt.mpr h20), if_pos h50]
  · intro h50
    rw [getStabilityIndicator,
      if_neg (not_lt.mpr (le_trans (by norm_num) h50)),
      if_neg (not_lt.mpr h50)]

theorem coef_stats_formulas_and_thresholds_witness :
    getStabilityIndicator 60 = Stability.unstable ∧
    cvPct id [] = 0 :=
  ⟨(coef_stats_formulas_and_thresholds id [] 60).2.2.2.2.2.2.2 (by norm_num),
   (coef_stats_formulas_and_thresholds id [] 60).2.2.2.1
     (by norm_num [listMean])⟩

/-- C8 (counterexample to the claim as stated): at CV exactly 50 — an
attainable value, e.g. for the coefficient list `[1, 3]` (mean 2,
population std 1) — the code labels the channel unstable, while the claim
places 50 in the moderate band ("20 to 50") and reserves unstable for CV
strictly above 50. -/
theorem stability_label_boundary_fifty :
    cvPct id [1, 3] = 50 ∧
    getStabilityIndicator (cvPct id [1, 3]) = Stability.unstable ∧
    claimedStability (cvPct id [1, 3]) = Stability.moderate ∧
    getStabilityIndicator (cvPct id [1, 3]) ≠
      claimedStability (cvPct id [1, 3]) := by
  have h : cvPct id [1, 3] = 50 := by
    norm_num [cvPct, listStd, listPopVar, listMean]
  have hg : getStabilityIndicator (cvPct id [1, 3]) = Stability.unstable := by
    rw [h, getStabilityIndicator, if_neg (by norm_num), if_neg (by norm_num)]
  have hc : claimedStability (cvPct id [1, 3]) = Stability.moderate := by
    rw [h, claimedStability, if_neg (by norm_num), if_pos (by norm_num)]
  refine ⟨h, hg, hc, ?_⟩
  rw [hg, hc]
  decide
